import Mathlib

/-!
Verification of the parasol encrypted-integer layer.

Shallow embedding of `src/parasol_runtime/src/fluent/int.rs` (the `Signed`
sign policy) and of `src/parasol_cpu/benches/chi_squared.rs` (the chi-squared
ISA program).  Operations of this repository whose code is not in those two
files (encryption, packing, serialization, the instruction-VM step function)
are modelled from the specification, each such definition marked
`Modelled from the spec:` in its doc comment.
-/

namespace HPU

/-- Result shape of a request to the Mux-Circuit Library.  The library itself
is an external collaborator; we record which circuit was requested and with
which parameters.  Modelled from the spec:
`compare_or_maybe_equal(width, signed_flag, want_gt, want_eq) -> circuit`,
`multiply(width) -> circuit`. -/
inductive MuxCircuit where
  | compareOrMaybeEqualSigned (width : Nat) (gt eq : Bool)
  | compareOrMaybeEqualUnsigned (width : Nat) (gt eq : Bool)
  | multiply (width : Nat)
deriving DecidableEq, Repr

/-- Modelled from the spec: the compare circuits return a single-bit boolean
result, while multiply produces the low and high product words. -/
def MuxCircuit.outputCount : MuxCircuit → Nat
  | .compareOrMaybeEqualSigned _ _ _ => 1
  | .compareOrMaybeEqualUnsigned _ _ _ => 1
  | .multiply w => 2 * w

namespace Signed

/-- From `Signed::gen_compare_circuit` in src/parasol_runtime/src/fluent/int.rs:
requests the signed compare-or-maybe-equal circuit at width `max_len`, passing
`gt` and `eq` through unchanged. -/
def gen_compare_circuit (max_len : Nat) (gt eq : Bool) : MuxCircuit :=
  MuxCircuit.compareOrMaybeEqualSigned max_len gt eq

/-- From `Signed::resize_config` in src/parasol_runtime/src/fluent/int.rs.
The Rust body is
`(new_size.min(old_size) - 1, new_size.saturating_sub(old_size) + 1, true)`
over `usize`; the first subtraction underflows (panics) exactly when
`new_size.min(old_size) == 0`, which we model as `none`.  `Nat`
subtraction coincides with `saturating_sub`. -/
def resize_config (old_size new_size : Nat) : Option (Nat × Nat × Bool) :=
  if min new_size old_size = 0 then
    none
  else
    some (min new_size old_size - 1, new_size - old_size + 1, true)

/-- Modelled from the spec: the generic `compare(other, want_gt, want_eq)`
operation requests the circuit from the sign policy sized to the wider of the
two operands. -/
def compare (a_width b_width : Nat) (want_gt want_eq : Bool) : MuxCircuit :=
  gen_compare_circuit (max a_width b_width) want_gt want_eq

end Signed

/-! ## Encrypted-integer value model

The encryption, decryption, packing and unpacking code of this repository is
not under src/ (only its tests in src/parasol_runtime/src/fluent/int.rs are),
so the value-level behaviour is modelled from the spec.  Ciphertexts are
modelled at the plaintext level: an unpacked integer is one ciphertext per
bit, a packed integer folds all bits into one ciphertext.  Fixed-width and
dynamic-width variants share this representation, as the spec prescribes
(width carried as explicit state, common internal representation). -/

/-- Modelled from the spec: opaque secret key; key material is irrelevant at
the plaintext level of the model. -/
structure SecretKey where
deriving DecidableEq

/-- Modelled from the spec: opaque public key. -/
structure PublicKey where
deriving DecidableEq

/-- Low-to-high binary decomposition of `v` into exactly `n` bits. -/
def toBits : Nat → Nat → List Nat
  | 0, _ => []
  | n + 1, v => v % 2 :: toBits n (v / 2)

/-- Recomposition of a low-to-high bit list into a value. -/
def fromBits : List Nat → Nat
  | [] => 0
  | b :: bs => b % 2 + 2 * fromBits bs

/-- Modelled from the spec: an unpacked encrypted integer — an ordered
sequence of exactly `width` single-bit ciphertexts (spec `GenericInt` /
`DynamicGenericInt`, which share one internal representation). -/
structure GenericInt where
  width : Nat
  bits : List Nat
deriving DecidableEq, Repr

/-- Modelled from the spec: a packed encrypted integer — the same logical
bits folded into one ciphertext (spec `PackedGenericInt` /
`PackedDynamicGenericInt`). -/
structure PackedGenericInt where
  width : Nat
  value : Nat
deriving DecidableEq, Repr

/-- Modelled from the spec: secret-key encryption of `v` at width `n`
(`encrypt_secret`); the plaintext is reduced to the representable range and
split into bits. -/
def GenericInt.encrypt_secret (n v : Nat) (_sk : SecretKey) : GenericInt :=
  { width := n, bits := toBits n v }

/-- Modelled from the spec: decryption of an unpacked integer recomposes its
bits. -/
def GenericInt.decrypt (x : GenericInt) (_sk : SecretKey) : Nat :=
  fromBits x.bits

/-- Modelled from the spec: public-key encryption of `v` at width `n` for the
packed representation. -/
def PackedGenericInt.encrypt (n v : Nat) (_pk : PublicKey) : PackedGenericInt :=
  { width := n, value := v % 2 ^ n }

/-- Modelled from the spec: trivial encryption of a public constant — note
the signature takes no secret key and no public key. -/
def PackedGenericInt.trivial_encrypt (n v : Nat) : PackedGenericInt :=
  { width := n, value := v % 2 ^ n }

/-- Modelled from the spec: decryption of a packed integer. -/
def PackedGenericInt.decrypt (x : PackedGenericInt) (_sk : SecretKey) : Nat :=
  x.value

/-- Modelled from the spec: `pack` folds the `width` single-bit ciphertexts
of an unpacked integer into one packed ciphertext encoding the same bits. -/
def GenericInt.pack (x : GenericInt) : PackedGenericInt :=
  { width := x.width, value := fromBits x.bits }

/-- Modelled from the spec: `unpack` splits a packed integer back into
`width` single-bit ciphertexts. -/
def PackedGenericInt.unpack (x : PackedGenericInt) : GenericInt :=
  { width := x.width, bits := toBits x.width x.value }

/-! ## Serialization model

The serialized form and both deserialization modes are not under src/ (only
their tests are); modelled from the spec. -/

/-- Modelled from the spec: the parameter set a validated deserialization
checks the byte stream against; we retain the ciphertext level. -/
structure Params where
  level : Nat
deriving DecidableEq, Repr

/-- Modelled from the spec: what the serialized form of an encrypted integer
must carry — its width, the ciphertext level of its payload, and the payload
itself. -/
structure StoredInt where
  width : Nat
  level : Nat
  value : Nat
deriving DecidableEq, Repr

/-- Modelled from the spec: byte-exact serialized form (framing is out of the
spec's scope, so the stream is the sequence of the three fields). -/
def serialize (x : StoredInt) : List Nat :=
  [x.width, x.level, x.value]

/-- Modelled from the spec: the fast/unchecked deserialization mode for
already-trusted data; it only requires the stream to parse. -/
def deserialize_unchecked (s : List Nat) : Option StoredInt :=
  match s with
  | [w, l, v] => some { width := w, level := l, value := v }
  | _ => none

/-- Error kinds of validated deserialization: parameter mismatch is distinct
from a malformed byte stream. -/
inductive DeserError where
  | paramMismatch
  | malformed
deriving DecidableEq, Repr

/-- Modelled from the spec: the validated deserialization mode — checks the
stream's parameters (level) against the supplied parameter set and its
structural consistency (payload within the declared width) before trusting
it, returning a distinct error kind for each failure. -/
def safe_deserialize (p : Params) (s : List Nat) : Except DeserError StoredInt :=
  match s with
  | [w, l, v] =>
    if l = p.level then
      if v < 2 ^ w then Except.ok { width := w, level := l, value := v }
      else Except.error DeserError.malformed
    else Except.error DeserError.paramMismatch
  | _ => Except.error DeserError.malformed

/-! ## Chi-squared ISA program

The instruction list is embedded verbatim from
`chi_sq_test_program` in src/parasol_cpu/benches/chi_squared.rs.  The VM that
executes it (`FheComputer::run_program`) is outside src/, so its step
function is modelled from the spec: every arithmetic operation is performed
homomorphically with wraparound at the register's bit-width, and
encrypt/decrypt at the boundary are value-preserving. -/

/-- Register names used by the chi-squared program (argument registers
A0–A3, callee registers X18–X24, temporaries T0–T6). -/
inductive Reg where
  | A0 | A1 | A2 | A3
  | X18 | X19 | X20 | X21 | X22 | X23 | X24
  | T0 | T1 | T2 | T3 | T4 | T5 | T6
deriving DecidableEq, Repr

/-- The ISA operations the chi-squared program uses, from
src/parasol_cpu/benches/chi_squared.rs (widths in bits). -/
inductive IsaOp where
  | Trunc (dst src : Reg) (width : Nat)
  | Move (dst src : Reg)
  | LoadI (dst : Reg) (imm : Nat) (width : Nat)
  | Mul (dst a b : Reg)
  | Add (dst a b : Reg)
  | Sub (dst a b : Reg)
  | Store (addr val : Reg) (width : Nat)
  | Ret
deriving DecidableEq, Repr

/-- Embedded verbatim from `chi_sq_test_program` in
src/parasol_cpu/benches/chi_squared.rs (width = 16). -/
def chi_sq_test_program : List IsaOp :=
  [ IsaOp.Trunc Reg.X18 Reg.A0 16,
    IsaOp.Trunc Reg.X19 Reg.A1 16,
    IsaOp.Trunc Reg.X20 Reg.A2 16,
    IsaOp.Move Reg.X21 Reg.A3,
    -- a = 4 * n_0 * n_2 - n_1 * n_1
    IsaOp.LoadI Reg.T0 4 16,
    IsaOp.Mul Reg.T0 Reg.T0 Reg.X18,
    IsaOp.Mul Reg.T0 Reg.T0 Reg.X20,
    IsaOp.Mul Reg.T1 Reg.X19 Reg.X19,
    IsaOp.Sub Reg.X22 Reg.T0 Reg.T1,
    -- x = 2 * n_0 + n_1
    IsaOp.LoadI Reg.T1 2 16,
    IsaOp.Mul Reg.T1 Reg.T1 Reg.X18,
    IsaOp.Add Reg.X23 Reg.T1 Reg.X19,
    -- y = 2 * n_2 + n_1
    IsaOp.LoadI Reg.T2 2 16,
    IsaOp.Mul Reg.T2 Reg.T2 Reg.X20,
    IsaOp.Add Reg.X24 Reg.T2 Reg.X19,
    -- res->alpha = a * a
    IsaOp.Mul Reg.T3 Reg.X22 Reg.X22,
    IsaOp.LoadI Reg.T0 0 32,
    IsaOp.Add Reg.T0 Reg.X21 Reg.T0,
    IsaOp.Store Reg.T0 Reg.T3 16,
    -- res->b_1 = 2 * x * x
    IsaOp.Mul Reg.T4 Reg.X23 Reg.X23,
    IsaOp.LoadI Reg.T6 2 16,
    IsaOp.Mul Reg.T4 Reg.T4 Reg.T6,
    IsaOp.LoadI Reg.T0 2 32,
    IsaOp.Add Reg.T0 Reg.X21 Reg.T0,
    IsaOp.Store Reg.T0 Reg.T4 16,
    -- res->b_2 = x * y
    IsaOp.Mul Reg.T5 Reg.X23 Reg.X24,
    IsaOp.LoadI Reg.T0 4 32,
    IsaOp.Add Reg.T0 Reg.X21 Reg.T0,
    IsaOp.Store Reg.T0 Reg.T5 16,
    -- res->b_3 = 2 * y * y
    IsaOp.Mul Reg.T6 Reg.X24 Reg.X24,
    IsaOp.LoadI Reg.T5 2 16,
    IsaOp.Mul Reg.T6 Reg.T5 Reg.T6,
    IsaOp.LoadI Reg.T0 6 32,
    IsaOp.Add Reg.T0 Reg.X21 Reg.T0,
    IsaOp.Store Reg.T0 Reg.T6 16,
    IsaOp.Ret ]

/-- Machine state: each register holds a (value, width) pair of an encrypted
word tracked at the plaintext level; memory is byte-addressed. -/
structure Machine where
  regs : Reg → Nat × Nat
  mem : Nat → Nat

/-- Pointwise register-file update. -/
def updReg (r : Reg → Nat × Nat) (x : Reg) (v : Nat × Nat) : Reg → Nat × Nat :=
  fun y => if y = x then v else r y

/-- Write `k` bytes of `v`, little-endian, starting at byte address `a`. -/
def storeBytes (mem : Nat → Nat) (a v : Nat) : Nat → (Nat → Nat)
  | 0 => mem
  | k + 1 =>
    storeBytes (fun x => if x = a then v % 256 else mem x) (a + 1) (v / 256) k

/-- Modelled from the spec: one VM step.  Arithmetic wraps at the destination
width (the operands' common width); `Trunc` reduces to the target width;
`Store` writes `width / 8` bytes at the pointer in `addr`. -/
def step (m : Machine) : IsaOp → Machine
  | IsaOp.Trunc dst src w =>
    { m with regs := updReg m.regs dst ((m.regs src).1 % 2 ^ w, w) }
  | IsaOp.Move dst src =>
    { m with regs := updReg m.regs dst (m.regs src) }
  | IsaOp.LoadI dst imm w =>
    { m with regs := updReg m.regs dst (imm % 2 ^ w, w) }
  | IsaOp.Mul dst a b =>
    let (va, w) := m.regs a
    let vb := (m.regs b).1
    { m with regs := updReg m.regs dst (va * vb % 2 ^ w, w) }
  | IsaOp.Add dst a b =>
    let (va, w) := m.regs a
    let vb := (m.regs b).1
    { m with regs := updReg m.regs dst ((va + vb) % 2 ^ w, w) }
  | IsaOp.Sub dst a b =>
    let (va, w) := m.regs a
    let vb := (m.regs b).1
    { m with regs := updReg m.regs dst ((va + (2 ^ w - vb % 2 ^ w)) % 2 ^ w, w) }
  | IsaOp.Store addr val w =>
    { m with mem := storeBytes m.mem (m.regs addr).1 ((m.regs val).1 % 2 ^ w) (w / 8) }
  | IsaOp.Ret => m

/-- Run a program from a starting state. -/
def run (m : Machine) (prog : List IsaOp) : Machine :=
  prog.foldl step m

/-- Initial state from `generate_args` in
src/parasol_cpu/benches/chi_squared.rs: A0, A1, A2 hold 16-bit encryptions of
2, 7, 9 and A3 the 32-bit result pointer (the allocated `[u16; 4]` buffer,
placed at address 0 here); memory starts zeroed.  Encryption at the boundary
is modelled from the spec as value-preserving. -/
def chi_sq_init : Machine :=
  { regs := fun r =>
      match r with
      | Reg.A0 => (2, 16)
      | Reg.A1 => (7, 16)
      | Reg.A2 => (9, 16)
      | Reg.A3 => (0, 32)
      | _ => (0, 0)
    mem := fun _ => 0 }

/-- Read the little-endian `u16` at byte address `a`. -/
def read16 (mem : Nat → Nat) (a : Nat) : Nat :=
  mem a % 256 + 256 * (mem (a + 1) % 256)

/-! ## Theorems -/

/-- Recomposing the `n`-bit decomposition of `v` yields `v` mod `2 ^ n`. -/
theorem fromBits_toBits (n v : Nat) : fromBits (toBits n v) = v % 2 ^ n := by
  induction n generalizing v with
  | zero => simp [toBits, fromBits, Nat.mod_one]
  | succ n ih =>
    have h1 : v / 2 % 2 ^ n = v % (2 * 2 ^ n) / 2 :=
      (Nat.mod_mul_right_div_self v 2 (2 ^ n)).symm
    have h2 : v % (2 * 2 ^ n) % 2 = v % 2 :=
      Nat.mod_mod_of_dvd v (Dvd.intro (2 ^ n) rfl)
    have h3 := Nat.div_add_mod (v % (2 * 2 ^ n)) 2
    have h4 : 2 ^ (n + 1) = 2 * 2 ^ n := by ring
    simp only [toBits, fromBits, ih, h4, h1]
    generalize v % (2 * 2 ^ n) = A at h2 h3
    omega

/-- C1: For the Signed policy and every pair of widths with
`min(old, new) ≥ 1`, `resize_config` returns exactly
`(min(old,new) - 1, max(0, new - old) + 1, true)`: the code's arithmetic
`keep = min(old,new) - 1` and `extend = (new saturating-minus old) + 1` with
`sign_extend = true` is applied for every pair of widths. -/
theorem signed_resize_config_arith (old_size new_size : Nat)
    (h : 1 ≤ min old_size new_size) :
    Signed.resize_config old_size new_size =
      some (min old_size new_size - 1,
            (max 0 ((new_size : Int) - (old_size : Int))).toNat + 1, true) := by
  unfold Signed.resize_config
  rcases Nat.le_total new_size old_size with hc | hc
  · rw [min_eq_right hc] at h ⊢
    rw [min_eq_left hc, max_eq_left (by omega), if_neg (by omega)]
    have hd : new_size - old_size = 0 := by omega
    rw [hd]
    rfl
  · rw [min_eq_left hc] at h ⊢
    rw [min_eq_right hc, max_eq_right (by omega), if_neg (by omega)]
    have hd : ((new_size : Int) - (old_size : Int)).toNat = new_size - old_size := by
      omega
    rw [hd]

/-- Witness for C1 at old = 8, new = 4 (a shrink). -/
theorem signed_resize_config_arith_witness :
    1 ≤ min 8 4 ∧
    Signed.resize_config 8 4 =
      some (min 8 4 - 1, (max 0 ((4 : Int) - (8 : Int))).toNat + 1, true) :=
  ⟨by decide, signed_resize_config_arith 8 4 (by decide)⟩

/-- C9: `Signed::resize_config` hits the `usize` underflow (the panic,
modelled as `none`) exactly when `min(old_size, new_size) = 0`; under the
precondition `min ≥ 1` the underflow branch is unreachable and the function
is total. -/
theorem signed_resize_config_underflow (old_size new_size : Nat) :
    Signed.resize_config old_size new_size = none ↔
      min old_size new_size = 0 := by
  unfold Signed.resize_config
  rw [min_comm new_size old_size]
  by_cases h0 : min old_size new_size = 0
  · simp [h0]
  · simp [h0]

/-- C10: whenever `Signed::resize_config` returns (i.e. under
`min(old,new) ≥ 1`), the returned pair satisfies
`keep_bits + extend_bits = new_size` and `extend_bits ≥ 1`: a signed resize
always yields exactly `new_size` bits and always re-derives the sign bit. -/
theorem signed_resize_config_width (old_size new_size keep ext : Nat) (se : Bool)
    (hmin : 1 ≤ min old_size new_size)
    (h : Signed.resize_config old_size new_size = some (keep, ext, se)) :
    keep + ext = new_size ∧ 1 ≤ ext := by
  unfold Signed.resize_config at h
  rcases Nat.le_total new_size old_size with hc | hc
  · rw [min_eq_right hc] at hmin
    rw [min_eq_left hc, if_neg (by omega)] at h
    simp only [Option.some.injEq, Prod.mk.injEq] at h
    obtain ⟨h1, h2, -⟩ := h
    omega
  · rw [min_eq_left hc] at hmin
    rw [min_eq_right hc, if_neg (by omega)] at h
    simp only [Option.some.injEq, Prod.mk.injEq] at h
    obtain ⟨h1, h2, -⟩ := h
    omega

/-- Witness for C10 at old = 4, new = 8 (a grow): keep = 3, extend = 5. -/
theorem signed_resize_config_width_witness :
    (1 ≤ min 4 8 ∧ Signed.resize_config 4 8 = some (3, 5, true)) ∧
    (3 + 5 = 8 ∧ 1 ≤ 5) :=
  ⟨⟨by decide, by decide⟩,
   signed_resize_config_width 4 8 3 5 true (by decide) (by decide)⟩

/-- C5: for the Signed policy, `compare` requests the signed
compare-or-maybe-equal circuit sized to the wider of the two operands,
passing `want_gt` and `want_eq` through unchanged, and the requested circuit
has a single-bit boolean output. -/
theorem signed_compare_circuit (a_width b_width : Nat) (want_gt want_eq : Bool) :
    Signed.compare a_width b_width want_gt want_eq =
      MuxCircuit.compareOrMaybeEqualSigned (max a_width b_width) want_gt want_eq ∧
    (Signed.compare a_width b_width want_gt want_eq).outputCount = 1 :=
  ⟨rfl, rfl⟩

/-- C4: encryption followed by decryption is the identity for every width `n`
and every representable value `v < 2 ^ n`, for the unpacked (secret-key) and
packed (public-key) variants; dynamic-width integers share the same
representation. -/
theorem decrypt_encrypt_id (n v : Nat) (sk : SecretKey) (pk : PublicKey)
    (h : v < 2 ^ n) :
    (GenericInt.encrypt_secret n v sk).decrypt sk = v ∧
    (PackedGenericInt.encrypt n v pk).decrypt sk = v := by
  constructor
  · show fromBits (toBits n v) = v
    rw [fromBits_toBits, Nat.mod_eq_of_lt h]
  · show v % 2 ^ n = v
    exact Nat.mod_eq_of_lt h

/-- Witness for C4 at width 16, value 2^16 − 42 (the repository test value). -/
theorem decrypt_encrypt_id_witness :
    65494 < 2 ^ 16 ∧
    ((GenericInt.encrypt_secret 16 65494 ⟨⟩).decrypt ⟨⟩ = 65494 ∧
     (PackedGenericInt.encrypt 16 65494 ⟨⟩).decrypt ⟨⟩ = 65494) :=
  ⟨by decide, decrypt_encrypt_id 16 65494 ⟨⟩ ⟨⟩ (by decide)⟩

/-- C3: pack and unpack are mutual inverses at the value level: for every
representable `v < 2 ^ n`, unpacking a packed encrypted integer, or packing
an unpacked one, and decrypting yields `v` again. -/
theorem pack_unpack_id (n v : Nat) (sk : SecretKey) (pk : PublicKey)
    (h : v < 2 ^ n) :
    ((GenericInt.encrypt_secret n v sk).pack.unpack).decrypt sk = v ∧
    ((PackedGenericInt.encrypt n v pk).unpack.pack).decrypt sk = v := by
  constructor
  · show fromBits (toBits n (fromBits (toBits n v))) = v
    calc fromBits (toBits n (fromBits (toBits n v)))
        = v % 2 ^ n % 2 ^ n := by rw [fromBits_toBits, fromBits_toBits]
      _ = v % 2 ^ n := Nat.mod_mod_of_dvd v (dvd_refl (2 ^ n))
      _ = v := Nat.mod_eq_of_lt h
  · show fromBits (toBits n (v % 2 ^ n)) = v
    calc fromBits (toBits n (v % 2 ^ n))
        = v % 2 ^ n % 2 ^ n := by rw [fromBits_toBits]
      _ = v % 2 ^ n := Nat.mod_mod_of_dvd v (dvd_refl (2 ^ n))
      _ = v := Nat.mod_eq_of_lt h

/-- Witness for C3 at width 16, value 2^16 − 42 (the repository test value). -/
theorem pack_unpack_id_witness :
    65494 < 2 ^ 16 ∧
    (((GenericInt.encrypt_secret 16 65494 ⟨⟩).pack.unpack).decrypt ⟨⟩ = 65494 ∧
     ((PackedGenericInt.encrypt 16 65494 ⟨⟩).unpack.pack).decrypt ⟨⟩ = 65494) :=
  ⟨by decide, pack_unpack_id 16 65494 ⟨⟩ ⟨⟩ (by decide)⟩

/-- C8: trivial encryption of a public constant takes no secret key (see the
signature of `PackedGenericInt.trivial_encrypt`), and decrypting it yields
the constant for every representable `v < 2 ^ n`. -/
theorem trivial_encrypt_decrypt (n v : Nat) (sk : SecretKey) (h : v < 2 ^ n) :
    (PackedGenericInt.trivial_encrypt n v).decrypt sk = v :=
  Nat.mod_eq_of_lt h

/-- Witness for C8 at width 15, value 2^15 − 42 (the repository test value). -/
theorem trivial_encrypt_decrypt_witness :
    32726 < 2 ^ 15 ∧
    (PackedGenericInt.trivial_encrypt 15 32726).decrypt ⟨⟩ = 32726 :=
  ⟨by decide, trivial_encrypt_decrypt 15 32726 ⟨⟩ (by decide)⟩

/-- C6: serialization round-trips under both deserialization modes: for every
structurally valid encrypted integer whose level matches the supplied
parameter set, `deserialize(serialize x) = x` in the fast/unchecked mode and
in the validated mode. -/
theorem serialize_roundtrip (x : StoredInt) (p : Params)
    (hl : x.level = p.level) (hv : x.value < 2 ^ x.width) :
    deserialize_unchecked (serialize x) = some x ∧
    safe_deserialize p (serialize x) = Except.ok x := by
  obtain ⟨w, l, v⟩ := x
  refine ⟨rfl, ?_⟩
  simp only [StoredInt.level] at hl
  simp only [StoredInt.value, StoredInt.width] at hv
  simp [safe_deserialize, serialize, hl, hv]

/-- Witness for C6 at the stream of width 15, level 1, value 2^15 − 42. -/
theorem serialize_roundtrip_witness :
    deserialize_unchecked (serialize (StoredInt.mk 15 1 32726)) =
      some (StoredInt.mk 15 1 32726) ∧
    safe_deserialize (Params.mk 1) (serialize (StoredInt.mk 15 1 32726)) =
      Except.ok (StoredInt.mk 15 1 32726) :=
  serialize_roundtrip (StoredInt.mk 15 1 32726) (Params.mk 1) rfl (by decide)

/-- C7: validated deserialization is total (never panics) and exhaustive:
either it succeeds and the result reproduces the stream exactly (no default
substitution) with matching parameters, or it fails with the distinct
`paramMismatch` kind on a well-formed stream whose level disagrees with the
supplied parameter set, or it fails with the distinct `malformed` kind on a
structurally inconsistent stream. -/
theorem safe_deserialize_spec (p : Params) (s : List Nat) :
    (∃ y, safe_deserialize p s = Except.ok y ∧ serialize y = s ∧
      y.level = p.level ∧ y.value < 2 ^ y.width) ∨
    (safe_deserialize p s = Except.error DeserError.paramMismatch ∧
      ∃ w l v, s = [w, l, v] ∧ l ≠ p.level) ∨
    (safe_deserialize p s = Except.error DeserError.malformed ∧
      (s.length ≠ 3 ∨ ∃ w l v, s = [w, l, v] ∧ 2 ^ w ≤ v)) := by
  rcases s with - | ⟨w, - | ⟨l, - | ⟨v, - | ⟨z, t⟩⟩⟩⟩
  · exact Or.inr (Or.inr ⟨rfl, Or.inl (by simp)⟩)
  · exact Or.inr (Or.inr ⟨rfl, Or.inl (by simp)⟩)
  · exact Or.inr (Or.inr ⟨rfl, Or.inl (by simp)⟩)
  · by_cases hl : l = p.level
    · by_cases hv : v < 2 ^ w
      · exact Or.inl ⟨StoredInt.mk w l v, by simp [safe_deserialize, hl, hv],
          rfl, hl, hv⟩
      · exact Or.inr (Or.inr ⟨by simp [safe_deserialize, hl, hv],
          Or.inr ⟨w, l, v, rfl, by omega⟩⟩)
    · exact Or.inr (Or.inl ⟨by simp [safe_deserialize, hl], ⟨w, l, v, rfl, hl⟩⟩)
  · refine Or.inr (Or.inr ⟨rfl, Or.inl ?_⟩)
    simp [List.length]

/-- C2: running the chi-squared ISA program on 16-bit encryptions of
n0 = 2, n1 = 7, n2 = 9 computes a = 23 in X22, x = 11 in X23, y = 25 in X24,
and stores alpha = 529, b1 = 242, b2 = 275, b3 = 1250 into the four `u16`
result slots. -/
theorem chi_sq_outputs :
    (run chi_sq_init chi_sq_test_program).regs Reg.X22 = (23, 16) ∧
    (run chi_sq_init chi_sq_test_program).regs Reg.X23 = (11, 16) ∧
    (run chi_sq_init chi_sq_test_program).regs Reg.X24 = (25, 16) ∧
    read16 (run chi_sq_init chi_sq_test_program).mem 0 = 529 ∧
    read16 (run chi_sq_init chi_sq_test_program).mem 2 = 242 ∧
    read16 (run chi_sq_init chi_sq_test_program).mem 4 = 275 ∧
    read16 (run chi_sq_init chi_sq_test_program).mem 6 = 1250 := by
  decide

end HPU
